import Mathlib

/-!
Verification of the content response cache and multilingual aggregation layer
of the BankIM management portal API client.

The definitions below are a shallow embedding of the TypeScript class
`ApiService` (src/services/api.ts): the in-memory content cache with ETag
support (`requestWithCache`, `getCacheStats`, `clearContentCache`), the
development placeholder-URL guard (`isPlaceholderUrl`, `getContentByScreen`),
and the multilingual content aggregator (`transformApiToContentPages`).

Conventions of the embedding:
- JavaScript `Map` objects become association lists (`alGet` / `alSet`),
  which reproduces `Map.get` / `Map.set` (replace-in-place or append).
- Timestamps are natural numbers; time arithmetic from the source
  (`Date.now() - cached.timestamp`) is performed in `Int`, matching
  JavaScript number subtraction.
- `undefined`-able strings become `Option String`; JavaScript truthiness of
  a string (`s` is truthy iff it is neither `undefined` nor `""`) is
  `jsTruthy`.
- The network boundary (`fetch` + `response.json()`) is abstracted into a
  `FetchOutcome` value: either a response with status, the three headers the
  source reads, and a body that decodes or throws, or a thrown transport
  error.  The `console.log` / `console.warn` observability calls of the
  source become `LogEvent` values in the call result.
-/

namespace BankimApi

/-- JavaScript string truthiness: a string is truthy iff it is neither
`undefined` (here `none`) nor the empty string. -/
def jsTruthy : Option String → Bool
  | none => false
  | some s => !(s == "")

/-- Model of `a || b || ''` on two possibly-absent strings (used for
`etag || contentVersion || ''` in the source, line 257). -/
def jsOrStr (a b : Option String) : String :=
  if jsTruthy a then a.getD ""
  else if jsTruthy b then b.getD ""
  else ""

/-- Model of `customTTL || this.CACHE_TTL` (source line 214): `0` and
`undefined` are falsy, so both fall back to the default. -/
def ttlOf (customTTL : Option Nat) (cacheTTLDefault : Nat) : Nat :=
  match customTTL with
  | some n => if n = 0 then cacheTTLDefault else n
  | none => cacheTTLDefault

/-- Association-list lookup; models `Map.get` (and property lookup on a
header object). -/
def alGet {β : Type} : List (String × β) → String → Option β
  | [], _ => none
  | (k', v) :: rest, k => if k' = k then some v else alGet rest k

/-- Association-list update; models `Map.set` (and object-spread override):
replace the value in place when the key is present, append otherwise. -/
def alSet {β : Type} : List (String × β) → String → β → List (String × β)
  | [], k, v => [(k, v)]
  | (k', v') :: rest, k, v =>
      if k' = k then (k, v) :: rest else (k', v') :: alSet rest k v

/-- One entry of the private `contentCache` map (source lines 173-178):
`{ data: any; etag: string; timestamp: number; ttl: number }`.  `data` is the
`data` field of the decoded body, which can be `undefined`. -/
structure CacheEntry (α : Type) where
  data : Option α
  etag : String
  timestamp : Nat
  ttl : Nat
deriving DecidableEq, Repr

/-- The `contentCache` map: request fingerprint to cached entry. -/
abbrev Cache (α : Type) : Type := List (String × CacheEntry α)

/-- The uniform result shape `ApiResponse<T>` (source lines 26-31):
`{ success: boolean; data?: T; error?: string }` (the unused `message`
field is omitted). -/
structure ApiResp (α : Type) where
  success : Bool
  data : Option α
  error : Option String
deriving DecidableEq, Repr

/-- Request options: the fields of `RequestInit` that call sites of the
cached executor can populate (`method`, `body`, `headers`).  Absent fields
are `none` / `[]`, mirroring `undefined` properties, which
`JSON.stringify` omits. -/
structure ReqOptions where
  method : Option String
  body : Option String
  headers : List (String × String)
deriving DecidableEq, Repr

/-- JSON string escaping at the character level, as performed by
`JSON.stringify` on the quote and backslash characters (other characters
are carried through unchanged). -/
def escList : List Char → List Char
  | [] => []
  | c :: s => (if c = '"' ∨ c = '\\' then ['\\', c] else [c]) ++ escList s

/-- String form of `escList`. -/
def escStr (s : String) : String := ⟨escList s.data⟩

/-- Serialization of the headers object inside `JSON.stringify(options)`. -/
def serializeHeaderList : List (String × String) → String
  | [] => ""
  | [(k, v)] => "\"" ++ escStr k ++ "\":\"" ++ escStr v ++ "\""
  | (k, v) :: rest =>
      "\"" ++ escStr k ++ "\":\"" ++ escStr v ++ "\"," ++ serializeHeaderList rest

/-- The `"headers":{...}` fragment, preceded by a comma (used when another
field precedes it); empty when the headers property is absent. -/
def headersTailFrag (h : List (String × String)) : String :=
  match h with
  | [] => ""
  | _ => ",\"headers\":\x7b" ++ serializeHeaderList h ++ "\x7d"

/-- The `"headers":{...}` fragment with no preceding comma (used when it is
the only field). -/
def headersOnlyFrag (h : List (String × String)) : String :=
  match h with
  | [] => ""
  | _ => "\"headers\":\x7b" ++ serializeHeaderList h ++ "\x7d"

/-- Model of `JSON.stringify(options)` for an options object written with
fields in the order `method`, `body`, `headers`; `undefined` fields are
omitted, exactly as `JSON.stringify` omits them. -/
def serializeOptions : ReqOptions → String
  | ⟨some m, some b, h⟩ =>
      "\x7b\"method\":\"" ++ escStr m ++ "\",\"body\":\"" ++ escStr b ++ "\""
        ++ headersTailFrag h ++ "\x7d"
  | ⟨some m, none, h⟩ =>
      "\x7b\"method\":\"" ++ escStr m ++ "\"" ++ headersTailFrag h ++ "\x7d"
  | ⟨none, some b, h⟩ =>
      "\x7b\"body\":\"" ++ escStr b ++ "\"" ++ headersTailFrag h ++ "\x7d"
  | ⟨none, none, h⟩ =>
      "\x7b" ++ headersOnlyFrag h ++ "\x7d"

/-- The cache fingerprint (source line 212):
`const cacheKey = endpoint + JSON.stringify(options)`. -/
def cacheKeyOf (endpoint : String) (o : ReqOptions) : String :=
  endpoint ++ serializeOptions o

/-- Character-list prefix test. -/
def isPrefixCL : List Char → List Char → Bool
  | [], _ => true
  | _ :: _, [] => false
  | a :: as, b :: bs => a = b && isPrefixCL as bs

/-- Substring containment, modelling `String.prototype.includes`. -/
def containsCL (pat : List Char) : List Char → Bool
  | [] => pat.isEmpty
  | c :: rest => isPrefixCL pat (c :: rest) || containsCL pat rest

/-- Decimal digit run to number, modelling `parseInt` on a digit string. -/
def digitsToNat (ds : List Char) : Nat :=
  ds.foldl (fun n c => n * 10 + (c.toNat - '0'.toNat)) 0

/-- The characters of the literal `max-age=`. -/
def maxAgePat : List Char := "max-age=".data

/-- First match of the regular expression `max-age=(\d+)` in a string
(source line 247): scan left to right for the literal `max-age=` followed by
at least one digit; the captured group is the maximal digit run there. -/
def firstMaxAge : List Char → Option Nat
  | [] => none
  | c :: rest =>
      if isPrefixCL maxAgePat (c :: rest) then
        let after := (c :: rest).drop maxAgePat.length
        let ds := after.takeWhile Char.isDigit
        if ds.isEmpty then firstMaxAge rest else some (digitsToNat ds)
      else firstMaxAge rest

/-- Freshness-window computation (source lines 245-251): start from the
caller/default TTL; when the `Cache-Control` header is truthy and contains
`max-age=`, and the regex `max-age=(\d+)` matches, use the matched seconds
converted to milliseconds. -/
def parsedTTLOf (ttl : Nat) (cacheControl : Option String) : Nat :=
  match cacheControl with
  | none => ttl
  | some cc =>
      if cc == "" then ttl
      else if containsCL maxAgePat cc.data then
        match firstMaxAge cc.data with
        | some n => n * 1000
        | none => ttl
      else ttl

/-- Observability events, mirroring the `console.log` / `console.warn` /
`console.error` calls of the source. -/
inductive LogEvent where
  | cacheHit304 (key : String)
  | cachedResponse (key : String) (ttl : Nat)
  | staleCacheWarn (key : String)
  | requestFailed
  | cacheCleared
deriving DecidableEq, Repr

/-- Outcome of the `fetch` call inside `requestWithCache`: either a response
(with the status and the three headers the source reads, and a body on which
`response.json()` either resolves or rejects with an error message), or a
transport-level throw (`none` models a thrown non-`Error` value). -/
inductive FetchOutcome (α : Type) where
  | ok (status : Nat) (etag cacheControl contentVersion : Option String)
      (body : Except String (ApiResp α))
  | err (msg : Option String)

/-- `error instanceof Error ? error.message : 'Unknown error occurred'`
(source lines 201 and 277). -/
def transportMsg (m : Option String) : String := m.getD "Unknown error occurred"

/-- Result of one `requestWithCache` call: the returned `ApiResponse`, the
cache after the call, the headers that were attached to the network request,
and the emitted log events. -/
structure ReqOut (α : Type) where
  resp : ApiResp α
  cache : Cache α
  sentHeaders : List (String × String)
  log : List LogEvent

/-- The `catch` block of `requestWithCache` (source lines 267-279): on any
throw inside the `try`, serve the cached payload when an entry exists whose
age is below twice its stored TTL, otherwise return a failure carrying the
error message. -/
def staleFallback {α : Type} (key : String) (cached : Option (CacheEntry α))
    (cache : Cache α) (hdrs : List (String × String)) (msg : String)
    (now1 : Nat) : ReqOut α :=
  match cached with
  | some ce =>
      if (now1 : Int) - ce.timestamp < (ce.ttl : Int) * 2 then
        ⟨⟨true, ce.data, none⟩, cache, hdrs, [.staleCacheWarn key]⟩
      else ⟨⟨false, none, some msg⟩, cache, hdrs, [.requestFailed]⟩
  | none => ⟨⟨false, none, some msg⟩, cache, hdrs, [.requestFailed]⟩

/-- The body of the `try` block after the 304 short-circuit (source lines
239-265): decode the body (a rejection falls into the `catch`), parse the
freshness window from `Cache-Control`, write a cache entry when the `ETag`
or `Bankim-Content-Version` header is truthy, and return the decoded body. -/
def afterJson {α : Type} (key : String) (cached : Option (CacheEntry α))
    (cache : Cache α) (hdrs : List (String × String)) (ttl : Nat)
    (etagH cacheControlH contentVersionH : Option String)
    (body : Except String (ApiResp α)) (now1 : Nat) : ReqOut α :=
  match body with
  | .error m => staleFallback key cached cache hdrs m now1
  | .ok result =>
      let parsedTTL := parsedTTLOf ttl cacheControlH
      if jsTruthy etagH || jsTruthy contentVersionH then
        ⟨result,
         alSet cache key ⟨result.data, jsOrStr etagH contentVersionH, now1, parsedTTL⟩,
         hdrs, [.cachedResponse key parsedTTL]⟩
      else ⟨result, cache, hdrs, []⟩

/-- The request headers (source lines 219-223): `Content-Type` first, then
`If-None-Match` when a fresh entry with a truthy validator exists, then the
caller's headers, later keys overriding earlier ones (object spread). -/
def builtHeaders {α : Type} (cached : Option (CacheEntry α)) (cacheValid : Bool)
    (optHeaders : List (String × String)) : List (String × String) :=
  let base := [("Content-Type", "application/json")]
  let withCond :=
    match cached with
    | some ce =>
        if cacheValid && !(ce.etag == "") then alSet base "If-None-Match" ce.etag
        else base
    | none => base
  optHeaders.foldl (fun hs p => alSet hs p.1 p.2) withCond

/-- Shallow embedding of `requestWithCache` (source lines 207-280).
`now0` is the value of `Date.now()` at the freshness check (line 217),
`outcome` the result of the `fetch` + `response.json()` boundary, and `now1`
the value of `Date.now()` on the post-response path (lines 258 and 269). -/
def requestWithCache {α : Type} (endpoint : String) (options : ReqOptions)
    (customTTL : Option Nat) (cacheTTLDefault : Nat) (cache : Cache α)
    (now0 : Nat) (outcome : FetchOutcome α) (now1 : Nat) : ReqOut α :=
  let cacheKey := cacheKeyOf endpoint options
  let cached := alGet cache cacheKey
  let ttl := ttlOf customTTL cacheTTLDefault
  let cacheValid :=
    match cached with
    | some ce => decide ((now0 : Int) - ce.timestamp < (ce.ttl : Int))
    | none => false
  let hdrs := builtHeaders cached cacheValid options.headers
  match outcome with
  | .err m => staleFallback cacheKey cached cache hdrs (transportMsg m) now1
  | .ok status etagH cacheControlH contentVersionH body =>
      match cached with
      | some ce =>
          if status = 304 then
            ⟨⟨true, ce.data, none⟩, cache, hdrs, [.cacheHit304 cacheKey]⟩
          else
            afterJson cacheKey (some ce) cache hdrs ttl etagH cacheControlH
              contentVersionH body now1
      | none =>
          afterJson cacheKey none cache hdrs ttl etagH cacheControlH
            contentVersionH body now1

/-- `clearContentCache` (source lines 283-286). -/
def clearContentCache {α : Type} (_cache : Cache α) : Cache α × List LogEvent :=
  ([], [.cacheCleared])

/-- One row of the `getCacheStats` report. -/
structure CacheStatEntry where
  key : String
  age : Int
  hasEtag : Bool
deriving DecidableEq, Repr

/-- `getCacheStats` (source lines 289-300): the cache size and, per entry,
its key, its age `Date.now() - value.timestamp`, and `!!value.etag`. -/
def getCacheStats {α : Type} (cache : Cache α) (now : Nat) :
    Nat × List CacheStatEntry :=
  (cache.length,
   cache.map (fun p => ⟨p.1, (now : Int) - p.2.timestamp, !(p.2.etag == "")⟩))

/-! Reachable cache states: every state obtainable from the empty cache by
`requestWithCache` calls and explicit clears. -/

inductive Reachable (α : Type) : Cache α → Prop where
  | empty : Reachable α []
  | step (endpoint : String) (options : ReqOptions) (customTTL : Option Nat)
      (cacheTTLDefault : Nat) (now0 : Nat) (outcome : FetchOutcome α)
      (now1 : Nat) (c : Cache α) : Reachable α c →
      Reachable α (requestWithCache endpoint options customTTL cacheTTLDefault
        c now0 outcome now1).cache
  | clear (c : Cache α) : Reachable α c → Reachable α (clearContentCache c).1

/-! Development fallback guard: placeholder URL detection and the static
mock payload of `getContentByScreen` (source lines 15-24 and 538-615). -/

/-- `isPlaceholderUrl` (source lines 15-24), parameterized by the
`VITE_USE_REAL_CONTENT_DATA === 'true'` configuration flag: when the flag is
set the predicate is constantly false; otherwise it checks the three
blocklisted substrings. -/
def isPlaceholderUrl (useRealContentData : Bool) (url : String) : Bool :=
  if useRealContentData then false
  else
    containsCL "your-api-domain.railway.app".data url.data ||
    containsCL "your-backend-domain.railway.app".data url.data ||
    containsCL "localhost:3001".data url.data

/-- A content value: the API delivers either a string or a string list. -/
inductive ContentValue where
  | str (s : String)
  | arr (l : List String)
deriving DecidableEq, Repr

/-- One value of the `content` record of a `ContentApiResponse`
(source lines 126-132). -/
structure ContentData where
  value : ContentValue
  component_type : String
  category : String
  language : String
  status : String
deriving DecidableEq, Repr

/-- `ContentApiResponse` (source lines 121-133); the `content` object
becomes an insertion-ordered association list. -/
structure ContentApiResponse where
  status : String
  screen_location : String
  language_code : String
  content_count : Nat
  content : List (String × ContentData)
deriving DecidableEq, Repr

/-- Trilingual value selection used by the mock payload:
`languageCode === 'ru' ? ru : languageCode === 'he' ? he : en`. -/
def mockVal (languageCode ru he en : String) : String :=
  if languageCode = "ru" then ru else if languageCode = "he" then he else en

/-- The statically defined mock payload of `getContentByScreen`
(source lines 543-606): seven content entries whose values are selected by
the language argument. -/
def mockContentResponse (screenLocation languageCode : String) :
    ContentApiResponse where
  status := "success"
  screen_location := screenLocation
  language_code := languageCode
  content_count := 7
  content :=
    [("app.main.action.1.dropdown.income_source",
      ⟨.str (mockVal languageCode "Основной источник дохода" "מקור הכנסה עיקרי"
        "Primary Income Source"), "dropdown", "dropdowns", languageCode, "approved"⟩),
     ("app.main.action.2.dropdown.employment_type",
      ⟨.str (mockVal languageCode "Тип занятости" "סוג תעסוקה" "Employment Type"),
        "dropdown", "dropdowns", languageCode, "approved"⟩),
     ("app.main.action.3.dropdown.property_type",
      ⟨.str (mockVal languageCode "Тип недвижимости" "סוג נכס" "Property Type"),
        "dropdown", "dropdowns", languageCode, "approved"⟩),
     ("app.main.action.4.text.page_title",
      ⟨.str (mockVal languageCode "Рассчитать Ипотеку" "חשב את המשכנתא שלך"
        "Calculate Mortgage"), "text", "headers", languageCode, "approved"⟩),
     ("app.main.action.5.text.description",
      ⟨.str (mockVal languageCode "Кредитная история" "היסטוריית אשראי"
        "Credit History"), "text", "headers", languageCode, "approved"⟩),
     ("app.main.action.6.text.document_type",
      ⟨.str (mockVal languageCode "Тип документа" "סוג מסמך" "Document Type"),
        "text", "labels", languageCode, "approved"⟩),
     ("app.main.action.7.link.family_status",
      ⟨.str (mockVal languageCode "Семейное положение" "מצב משפחתי"
        "Marital Status"), "link", "navigation", languageCode, "approved"⟩)]

/-- Result of a `getContentByScreen` call: the returned response, the cache
afterwards, and whether the network boundary (`fetch`) was exercised. -/
structure ScreenOut where
  resp : ApiResp ContentApiResponse
  cache : Cache ContentApiResponse
  fetchInvoked : Bool

/-- `getContentByScreen` (source lines 538-615): when the configured base
URL is a placeholder, return the static mock payload without any network
call; otherwise delegate to `requestWithCache` on the content endpoint. -/
def getContentByScreen (useRealContentData : Bool) (apiBaseUrl : String)
    (screenLocation languageCode : String) (cache : Cache ContentApiResponse)
    (now0 : Nat) (outcome : FetchOutcome ContentApiResponse) (now1 : Nat)
    (cacheTTLDefault : Nat) : ScreenOut :=
  if isPlaceholderUrl useRealContentData apiBaseUrl then
    ⟨⟨true, some (mockContentResponse screenLocation languageCode), none⟩,
      cache, false⟩
  else
    let r := requestWithCache
      ("/api/content/" ++ screenLocation ++ "/" ++ languageCode)
      ⟨none, none, []⟩ none cacheTTLDefault cache now0 outcome now1
    ⟨r.resp, r.cache, true⟩

/-- Inverse scanner for an escaped JSON string segment: consume characters
up to the first unescaped quote, undoing the escaping. -/
def unquote : List Char → Option (List Char × List Char)
  | [] => none
  | '"' :: t => some ([], t)
  | '\\' :: [] => none
  | '\\' :: d :: t => (unquote t).map (fun p => (d :: p.1, p.2))
  | c :: t => (unquote t).map (fun p => (c :: p.1, p.2))

/-! Content aggregator: `transformApiToContentPages` (source lines
1214-1282) merges per-language content responses into one ordered list of
`ContentPage` view models. -/

/-- The in-progress `Partial<ContentPage>` record accumulated in
`contentMap` while processing responses; `Date` fields are modelled by
their string literals. -/
structure PageBuild where
  id : String
  pageNumber : Nat
  actionCount : Nat
  category : String
  status : String
  createdAt : String
  lastModified : String
  createdBy : String
  modifiedBy : String
  url : String
  titleRu : Option String
  titleHe : Option String
  titleEn : Option String
  title : Option String
  contentType : Option String
deriving DecidableEq, Repr

/-- The final `ContentPage` shape produced by the aggregator (fields as
populated by the source; the imported interface also carries these). -/
structure ContentPage where
  id : String
  pageNumber : Nat
  actionCount : Nat
  category : String
  status : String
  createdAt : String
  lastModified : String
  createdBy : String
  modifiedBy : String
  url : String
  titleRu : Option String
  titleHe : Option String
  titleEn : Option String
  title : String
  contentType : Option String
deriving DecidableEq, Repr

/-- The characters of the pattern prefix `app.main.action.`. -/
def actionPatCL : List Char := "app.main.action.".data

/-- First match of the regular expression `app\.main\.action\.(\d+)\.` in a
content key (source line 1222): scan for the literal prefix followed by at
least one digit followed by a dot; the captured number is the maximal digit
run. -/
def extractAction : List Char → Option Nat
  | [] => none
  | c :: rest =>
      if isPrefixCL actionPatCL (c :: rest) then
        let after := (c :: rest).drop actionPatCL.length
        let ds := after.takeWhile Char.isDigit
        if ds.isEmpty then extractAction rest
        else if (after.drop ds.length).head? = some '.' then
          some (digitsToNat ds)
        else extractAction rest
      else extractAction rest

/-- Creation of a fresh map entry on first encounter of an action number
(source lines 1227-1240). -/
def newPage (n : Nat) (cd : ContentData) : PageBuild where
  id := "action-" ++ toString n
  pageNumber := n
  actionCount := 1
  category := "main"
  status := if cd.status = "approved" then "published" else "draft"
  createdAt := "2024-12-01"
  lastModified := "2024-12-15"
  createdBy := "content-manager"
  modifiedBy := "content-manager"
  url := "/dropdown-action-" ++ toString n
  titleRu := none
  titleHe := none
  titleEn := none
  title := none
  contentType := none

/-- `Array.isArray(value) ? value[0] : value` — the stored title candidate;
`none` models `undefined` (empty array). -/
def firstVal : ContentValue → Option String
  | .str s => some s
  | .arr l => l.head?

/-- The language branch (source lines 1245-1252): `ru` sets `titleRu` and
the canonical `title`; `he` and `en` set only their own slot. -/
def applyLang (lang : String) (cd : ContentData) (p : PageBuild) : PageBuild :=
  if lang = "ru" then
    { p with titleRu := firstVal cd.value, title := firstVal cd.value }
  else if lang = "he" then { p with titleHe := firstVal cd.value }
  else if lang = "en" then { p with titleEn := firstVal cd.value }
  else p

/-- The component-type branch (source lines 1254-1267): classify the
content type, and for list-valued dropdowns raise the action count. -/
def applyKind (cd : ContentData) (p : PageBuild) : PageBuild :=
  if cd.component_type = "dropdown" then
    let ac : Nat :=
      match cd.value with
      | .arr l => max (if p.actionCount = 0 then 1 else p.actionCount) l.length
      | .str _ => p.actionCount
    { p with contentType := some "dropdown", actionCount := ac }
  else if cd.component_type = "text" then { p with contentType := some "text" }
  else if cd.component_type = "link" then { p with contentType := some "link" }
  else { p with contentType := some "mixed" }

/-- Processing of one content key/value pair (source lines 1219-1268). -/
def processKey (m : List (String × PageBuild)) (lang : String) (key : String)
    (cd : ContentData) : List (String × PageBuild) :=
  match extractAction key.data with
  | none => m
  | some n =>
      let actionId := "action-" ++ toString n
      let m1 :=
        match alGet m actionId with
        | some _ => m
        | none => alSet m actionId (newPage n cd)
      match alGet m1 actionId with
      | none => m1
      | some page => alSet m1 actionId (applyKind cd (applyLang lang cd page))

/-- Processing of one per-language response (source lines 1217-1271). -/
def processResponse (m : List (String × PageBuild))
    (r : ContentApiResponse) : List (String × PageBuild) :=
  r.content.foldl (fun m p => processKey m r.language_code p.1 p.2) m

/-- The `contentMap` after all responses are processed. -/
def buildPageMap (rs : List ContentApiResponse) : List (String × PageBuild) :=
  rs.foldl processResponse []

/-- The final mapping step (source lines 1276-1280): fill the display title
by the `title || titleRu || titleEn || 'Untitled'` chain and default the
action count. -/
def finalize (p : PageBuild) : ContentPage where
  id := p.id
  pageNumber := p.pageNumber
  actionCount := if p.actionCount = 0 then 1 else p.actionCount
  category := p.category
  status := p.status
  createdAt := p.createdAt
  lastModified := p.lastModified
  createdBy := p.createdBy
  modifiedBy := p.modifiedBy
  url := p.url
  titleRu := p.titleRu
  titleHe := p.titleHe
  titleEn := p.titleEn
  title :=
    if jsTruthy p.title then p.title.getD ""
    else if jsTruthy p.titleRu then p.titleRu.getD ""
    else if jsTruthy p.titleEn then p.titleEn.getD ""
    else "Untitled"
  contentType := p.contentType

instance : IsTotal ContentPage (fun a b => a.pageNumber ≤ b.pageNumber) :=
  ⟨fun a b => Nat.le_total a.pageNumber b.pageNumber⟩

instance : IsTrans ContentPage (fun a b => a.pageNumber ≤ b.pageNumber) :=
  ⟨fun _ _ _ => Nat.le_trans⟩

/-- `transformApiToContentPages` (source lines 1214-1282): build the map,
keep only entries with a truthy canonical title, finalize, and sort
ascending by page number (the JavaScript comparator
`(a.pageNumber || 0) - (b.pageNumber || 0)` on always-populated numbers). -/
def transformApiToContentPages (rs : List ContentApiResponse) :
    List ContentPage :=
  List.insertionSort (fun a b => a.pageNumber ≤ b.pageNumber)
    ((((buildPageMap rs).map Prod.snd).filter
        (fun p => jsTruthy p.title)).map finalize)

/-- Sample inputs carrying sequence numbers 3, 1, 2 in that encounter
order. -/
def sampleRespSeq312 : List ContentApiResponse :=
  [⟨"success", "main_page", "ru", 3,
    [("app.main.action.3.text.c", ⟨.str "Три", "text", "headers", "ru", "approved"⟩),
     ("app.main.action.1.dropdown.a", ⟨.str "Один", "dropdown", "dropdowns", "ru", "approved"⟩),
     ("app.main.action.2.link.b", ⟨.str "Два", "link", "navigation", "ru", "approved"⟩)]⟩]

/-- A single-language response whose language is Hebrew, carrying a
non-empty title for sequence number 1. -/
def heOnlyResp : ContentApiResponse :=
  ⟨"success", "main_page", "he", 1,
    [("app.main.action.1.text.x",
      ⟨.str "שלום", "text", "headers", "he", "approved"⟩)]⟩

/-- A single-language response in the primary language only. -/
def ruOnlyResp : ContentApiResponse :=
  ⟨"success", "main_page", "ru", 1,
    [("app.main.action.1.dropdown.a",
      ⟨.str "Один", "dropdown", "dropdowns", "ru", "approved"⟩)]⟩

/-- A single-language response whose language is English. -/
def enOnlyResp : ContentApiResponse :=
  ⟨"success", "main_page", "en", 1,
    [("app.main.action.1.text.b",
      ⟨.str "Hello", "text", "headers", "en", "approved"⟩)]⟩

/-! Sanity checks evaluating the embedding on concrete inputs. -/

example :
    (requestWithCache "e" ⟨none, none, []⟩ none 300000 ([] : Cache Nat) 0
      (.ok 200 (some "v1") none none (.ok ⟨true, some 5, none⟩)) 10).cache
      = [("e\x7b\x7d", ⟨some 5, "v1", 10, 300000⟩)] := by decide

example :
    (requestWithCache "e" ⟨none, none, []⟩ none 300000
      ([("e\x7b\x7d", ⟨some 7, "v", 0, 1000⟩)] : Cache Nat) 0
      (.err (some "boom")) 1500).resp = ⟨true, some 7, none⟩ := by decide

example :
    (requestWithCache "e" ⟨none, none, []⟩ none 300000
      ([("e\x7b\x7d", ⟨some 7, "v", 0, 1000⟩)] : Cache Nat) 0
      (.err (some "boom")) 2500).resp = ⟨false, none, some "boom"⟩ := by decide

example : parsedTTLOf 300000 (some "public, max-age=60") = 60000 := by decide

example : cacheKeyOf "/api/x" ⟨some "PUT", some "b", []⟩
    = "/api/x\x7b\"method\":\"PUT\",\"body\":\"b\"\x7d" := by decide

/-! Basic lemmas about the association-list operations. -/

theorem alGet_alSet_self {β : Type} (m : List (String × β)) (k : String) (v : β) :
    alGet (alSet m k v) k = some v := by
  induction m with
  | nil => simp [alSet, alGet]
  | cons p rest ih =>
      by_cases h : p.1 = k
      · simp [alSet, alGet, h]
      · simp [alSet, alGet, h, ih]

theorem alGet_alSet_ne {β : Type} (m : List (String × β)) (k k' : String) (v : β)
    (h : k' ≠ k) : alGet (alSet m k' v) k = alGet m k := by
  induction m with
  | nil => simp [alSet, alGet, h]
  | cons q rest ih =>
      obtain ⟨qk, qv⟩ := q
      by_cases hp : qk = k'
      · simp [alSet, alGet, hp, h]
      · by_cases hk : qk = k
        · simp [alSet, alGet, hp, hk, Ne.symm h]
        · simp [alSet, alGet, hp, hk, ih]

theorem mem_alSet {β : Type} (m : List (String × β)) (k : String) (v : β)
    (p : String × β) (hp : p ∈ alSet m k v) : p ∈ m ∨ p = (k, v) := by
  induction m with
  | nil => simpa [alSet] using hp
  | cons q rest ih =>
      obtain ⟨qk, qv⟩ := q
      by_cases h : qk = k
      · rw [show alSet ((qk, qv) :: rest) k v = (k, v) :: rest by simp [alSet, h]] at hp
        rcases List.mem_cons.1 hp with hp1 | hp1
        · exact Or.inr hp1
        · exact Or.inl (List.mem_cons_of_mem _ hp1)
      · rw [show alSet ((qk, qv) :: rest) k v = (qk, qv) :: alSet rest k v by
              simp [alSet, h]] at hp
        rcases List.mem_cons.1 hp with hp1 | hp1
        · exact Or.inl (hp1 ▸ List.mem_cons_self (qk, qv) rest)
        · rcases ih hp1 with h1 | h1
          · exact Or.inl (List.mem_cons_of_mem _ h1)
          · exact Or.inr h1

theorem alGet_foldl_alSet_notmem (base : List (String × String))
    (add : List (String × String)) (k : String)
    (h : ∀ p ∈ add, p.1 ≠ k) :
    alGet (add.foldl (fun hs p => alSet hs p.1 p.2) base) k = alGet base k := by
  induction add generalizing base with
  | nil => rfl
  | cons q rest ih =>
      have hq : q.1 ≠ k := h q (List.mem_cons_self q rest)
      have hrest : ∀ p ∈ rest, p.1 ≠ k := fun p hp => h p (List.mem_cons_of_mem _ hp)
      simp only [List.foldl_cons]
      rw [ih _ hrest, alGet_alSet_ne _ _ _ _ hq]

/-- `C1`: On a transport-level fetch error, `requestWithCache` returns
success carrying the cached payload and logs the served-from-stale-cache
warning exactly when a cache entry for the fingerprint exists with age
strictly below twice its stored freshness window; otherwise it returns a
failure carrying the underlying transport error message. -/
theorem claim1_stale_fallback_on_transport_error {α : Type} (endpoint : String)
    (options : ReqOptions) (customTTL : Option Nat) (cacheTTLDefault : Nat)
    (cache : Cache α) (now0 : Nat) (m : String) (now1 : Nat) :
    (∀ ce, alGet cache (cacheKeyOf endpoint options) = some ce →
      (((now1 : Int) - ce.timestamp < (ce.ttl : Int) * 2 →
        (requestWithCache endpoint options customTTL cacheTTLDefault cache now0
            (.err (some m)) now1).resp = ⟨true, ce.data, none⟩ ∧
        LogEvent.staleCacheWarn (cacheKeyOf endpoint options) ∈
          (requestWithCache endpoint options customTTL cacheTTLDefault cache now0
            (.err (some m)) now1).log) ∧
      (¬ ((now1 : Int) - ce.timestamp < (ce.ttl : Int) * 2) →
        (requestWithCache endpoint options customTTL cacheTTLDefault cache now0
            (.err (some m)) now1).resp = ⟨false, none, some m⟩))) ∧
    (alGet cache (cacheKeyOf endpoint options) = none →
      (requestWithCache endpoint options customTTL cacheTTLDefault cache now0
          (.err (some m)) now1).resp = ⟨false, none, some m⟩) := by
  constructor
  · intro ce hce
    constructor
    · intro hage
      simp [requestWithCache, staleFallback, transportMsg, hce, hage]
    · intro hage
      simp [requestWithCache, staleFallback, transportMsg, hce, hage]
  · intro hnone
    simp [requestWithCache, staleFallback, transportMsg, hnone]

/-- Witness for `C1`: a concrete transport failure served from stale cache. -/
theorem claim1_witness :
    (requestWithCache "e" ⟨none, none, []⟩ none 300000
        ([("e\x7b\x7d", ⟨some 7, "v", 0, 1000⟩)] : Cache Nat) 0
        (.err (some "Failed to fetch")) 1500).resp = ⟨true, some 7, none⟩ ∧
    LogEvent.staleCacheWarn "e\x7b\x7d" ∈
      (requestWithCache "e" ⟨none, none, []⟩ none 300000
        ([("e\x7b\x7d", ⟨some 7, "v", 0, 1000⟩)] : Cache Nat) 0
        (.err (some "Failed to fetch")) 1500).log :=
  ((claim1_stale_fallback_on_transport_error "e" ⟨none, none, []⟩ none 300000
      [("e\x7b\x7d", ⟨some 7, "v", 0, 1000⟩)] 0 "Failed to fetch" 1500).1
    ⟨some 7, "v", 0, 1000⟩ (by decide)).1 (by decide)

/-- `C2`: On a 304 response, `requestWithCache` returns success with the
cached payload and leaves the cache store unchanged when an entry for the
fingerprint exists; when no entry exists (the body of a 304 carries no
decodable JSON, so `response.json()` rejects), the call returns a failure
and carries no data. -/
theorem claim2_not_modified_revalidation {α : Type} (endpoint : String)
    (options : ReqOptions) (customTTL : Option Nat) (cacheTTLDefault : Nat)
    (cache : Cache α) (now0 now1 : Nat) (etagH cacheControlH contentVersionH : Option String)
    (body : Except String (ApiResp α)) :
    (∀ ce, alGet cache (cacheKeyOf endpoint options) = some ce →
      (requestWithCache endpoint options customTTL cacheTTLDefault cache now0
          (.ok 304 etagH cacheControlH contentVersionH body) now1).resp
        = ⟨true, ce.data, none⟩ ∧
      (requestWithCache endpoint options customTTL cacheTTLDefault cache now0
          (.ok 304 etagH cacheControlH contentVersionH body) now1).cache = cache) ∧
    (alGet cache (cacheKeyOf endpoint options) = none →
      ∀ m, body = .error m →
      (requestWithCache endpoint options customTTL cacheTTLDefault cache now0
          (.ok 304 etagH cacheControlH contentVersionH body) now1).resp
        = ⟨false, none, some m⟩) := by
  constructor
  · intro ce hce
    constructor
    · simp [requestWithCache, hce]
    · simp [requestWithCache, hce]
  · intro hnone m hm
    subst hm
    simp [requestWithCache, afterJson, staleFallback, hnone]

/-- Witness for `C2`: a concrete revalidated hit returns the cached payload
without touching the store. -/
theorem claim2_witness :
    (requestWithCache "e" ⟨none, none, []⟩ none 300000
        ([("e\x7b\x7d", ⟨some 9, "v1", 0, 1000⟩)] : Cache Nat) 100
        (.ok 304 (some "v1") none none (.error "Unexpected end of JSON input")) 120).resp
      = ⟨true, some 9, none⟩ ∧
    (requestWithCache "e" ⟨none, none, []⟩ none 300000
        ([("e\x7b\x7d", ⟨some 9, "v1", 0, 1000⟩)] : Cache Nat) 100
        (.ok 304 (some "v1") none none (.error "Unexpected end of JSON input")) 120).cache
      = [("e\x7b\x7d", ⟨some 9, "v1", 0, 1000⟩)] :=
  (claim2_not_modified_revalidation "e" ⟨none, none, []⟩ none 300000
      [("e\x7b\x7d", ⟨some 9, "v1", 0, 1000⟩)] 100 120 (some "v1") none none
      (.error "Unexpected end of JSON input")).1
    ⟨some 9, "v1", 0, 1000⟩ (by decide)

/-- Counterexample to `C5` as stated: a non-304 response whose body fails to
decode does NOT surface a failure when a cache entry younger than twice its
freshness window exists — the call returns success with the cached payload
(the decode rejection falls into the same `catch` as transport errors). -/
theorem claim5_counterexample :
    (requestWithCache "e" ⟨none, none, []⟩ none 300000
        ([("e\x7b\x7d", ⟨some 7, "v", 0, 1000⟩)] : Cache Nat) 0
        (.ok 200 none none none (.error "Unexpected token u in JSON")) 500).resp.success
      = true := by decide

/-- `C5` (amended): on a non-304 response whose body fails to decode, the
call surfaces a failure carrying the decode error message unless a cache
entry with age below twice its freshness window exists, in which case the
stale cached payload is returned; in every case the cache is unchanged and
no payload is ever derived from the malformed body. -/
theorem claim5_decode_failure_amended {α : Type} (endpoint : String)
    (options : ReqOptions) (customTTL : Option Nat) (cacheTTLDefault : Nat)
    (cache : Cache α) (now0 now1 : Nat) (status : Nat)
    (etagH cacheControlH contentVersionH : Option String) (m : String)
    (hstatus : status ≠ 304) :
    (∀ ce, alGet cache (cacheKeyOf endpoint options) = some ce →
      (((now1 : Int) - ce.timestamp < (ce.ttl : Int) * 2 →
        (requestWithCache endpoint options customTTL cacheTTLDefault cache now0
            (.ok status etagH cacheControlH contentVersionH (.error m)) now1).resp
          = ⟨true, ce.data, none⟩) ∧
      (¬ ((now1 : Int) - ce.timestamp < (ce.ttl : Int) * 2 ) →
        (requestWithCache endpoint options customTTL cacheTTLDefault cache now0
            (.ok status etagH cacheControlH contentVersionH (.error m)) now1).resp
          = ⟨false, none, some m⟩))) ∧
    (alGet cache (cacheKeyOf endpoint options) = none →
      (requestWithCache endpoint options customTTL cacheTTLDefault cache now0
          (.ok status etagH cacheControlH contentVersionH (.error m)) now1).resp
        = ⟨false, none, some m⟩) ∧
    (requestWithCache endpoint options customTTL cacheTTLDefault cache now0
        (.ok status etagH cacheControlH contentVersionH (.error m)) now1).cache
      = cache := by
  refine ⟨fun ce hce => ⟨fun hage => ?_, fun hage => ?_⟩, fun hnone => ?_, ?_⟩
  · simp [requestWithCache, afterJson, staleFallback, hce, hage, hstatus]
  · simp [requestWithCache, afterJson, staleFallback, hce, hage, hstatus]
  · simp [requestWithCache, afterJson, staleFallback, hnone]
  · cases hce : alGet cache (cacheKeyOf endpoint options) with
    | none => simp [requestWithCache, afterJson, staleFallback, hce]
    | some ce =>
        by_cases hage : (now1 : Int) - ce.timestamp < (ce.ttl : Int) * 2
        · simp [requestWithCache, afterJson, staleFallback, hce, hage, hstatus]
        · simp [requestWithCache, afterJson, staleFallback, hce, hage, hstatus]

/-- Witness for `C5` (amended): with no eligible cache entry, a decode
failure surfaces the error. -/
theorem claim5_witness :
    (requestWithCache "e" ⟨none, none, []⟩ none 300000 ([] : Cache Nat) 0
        (.ok 200 none none none (.error "Unexpected token u in JSON")) 500).resp
      = ⟨false, none, some "Unexpected token u in JSON"⟩ :=
  ((claim5_decode_failure_amended "e" ⟨none, none, []⟩ none 300000 [] 0 500 200
      none none none "Unexpected token u in JSON" (by decide)).2.1 (by decide))

/-! Lemmas about the pieces of `requestWithCache` used by several claims. -/

theorem staleFallback_sentHeaders {α : Type} (key : String)
    (cached : Option (CacheEntry α)) (cache : Cache α)
    (hdrs : List (String × String)) (msg : String) (now1 : Nat) :
    (staleFallback key cached cache hdrs msg now1).sentHeaders = hdrs := by
  cases cached with
  | none => rfl
  | some ce =>
      by_cases h : (now1 : Int) - ce.timestamp < (ce.ttl : Int) * 2 <;>
        simp [staleFallback, h]

theorem staleFallback_cache {α : Type} (key : String)
    (cached : Option (CacheEntry α)) (cache : Cache α)
    (hdrs : List (String × String)) (msg : String) (now1 : Nat) :
    (staleFallback key cached cache hdrs msg now1).cache = cache := by
  cases cached with
  | none => rfl
  | some ce =>
      by_cases h : (now1 : Int) - ce.timestamp < (ce.ttl : Int) * 2 <;>
        simp [staleFallback, h]

theorem afterJson_sentHeaders {α : Type} (key : String)
    (cached : Option (CacheEntry α)) (cache : Cache α)
    (hdrs : List (String × String)) (ttl : Nat)
    (etagH cacheControlH contentVersionH : Option String)
    (body : Except String (ApiResp α)) (now1 : Nat) :
    (afterJson key cached cache hdrs ttl etagH cacheControlH contentVersionH
      body now1).sentHeaders = hdrs := by
  cases body with
  | error m => exact staleFallback_sentHeaders _ _ _ _ _ _
  | ok r =>
      cases hg : (jsTruthy etagH || jsTruthy contentVersionH) <;>
        simp [afterJson, hg]

theorem jsTruthy_getD_ne (a : Option String) (h : jsTruthy a = true) :
    a.getD "" ≠ "" := by
  cases a with
  | none => simp [jsTruthy] at h
  | some s =>
      simp [jsTruthy] at h
      simpa using h

theorem jsOrStr_ne_empty (a b : Option String)
    (h : (jsTruthy a || jsTruthy b) = true) : jsOrStr a b ≠ "" := by
  by_cases ha : jsTruthy a = true
  · simpa [jsOrStr, ha] using jsTruthy_getD_ne a ha
  · have hb : jsTruthy b = true := by
      rcases Bool.or_eq_true_iff.1 h with h1 | h1
      · exact absurd h1 ha
      · exact h1
    simpa [jsOrStr, ha, hb] using jsTruthy_getD_ne b hb

theorem firstMaxAge_some_contains (l : List Char) (n : Nat)
    (h : firstMaxAge l = some n) : containsCL maxAgePat l = true := by
  induction l with
  | nil => simp [firstMaxAge] at h
  | cons c rest ih =>
      by_cases hpre : isPrefixCL maxAgePat (c :: rest) = true
      · simp [containsCL, hpre]
      · simp only [firstMaxAge, hpre, if_false] at h
        simp [containsCL, hpre, ih h]

/-- The freshness window actually stored equals the `max-age` directive in
milliseconds when the `Cache-Control` header carries one, and the default
TTL otherwise. -/
theorem parsedTTLOf_eq (ttl : Nat) (cacheControl : Option String) :
    parsedTTLOf ttl cacheControl
      = match cacheControl.bind (fun s => firstMaxAge s.data) with
        | some k => k * 1000
        | none => ttl := by
  cases cacheControl with
  | none => rfl
  | some cc =>
      by_cases hev : cc == ""
      · have : cc = "" := by simpa using hev
        subst this
        simp [parsedTTLOf, firstMaxAge]
      · by_cases hcont : containsCL maxAgePat cc.data = true
        · cases hma : firstMaxAge cc.data with
          | none => simp [parsedTTLOf, hev, hcont, hma]
          | some k => simp [parsedTTLOf, hev, hcont, hma]
        · have hma : firstMaxAge cc.data = none := by
            cases hma : firstMaxAge cc.data with
            | none => rfl
            | some k => exact absurd (firstMaxAge_some_contains _ _ hma) hcont
          simp [parsedTTLOf, hev, hcont, hma]

/-- The headers sent by `requestWithCache` do not depend on the network
outcome: they are always the merged base, conditional, and caller headers. -/
theorem requestWithCache_sentHeaders {α : Type} (endpoint : String)
    (options : ReqOptions) (customTTL : Option Nat) (cacheTTLDefault : Nat)
    (cache : Cache α) (now0 : Nat) (outcome : FetchOutcome α) (now1 : Nat) :
    (requestWithCache endpoint options customTTL cacheTTLDefault cache now0
        outcome now1).sentHeaders
      = builtHeaders (alGet cache (cacheKeyOf endpoint options))
          (match alGet cache (cacheKeyOf endpoint options) with
           | some ce => decide ((now0 : Int) - ce.timestamp < (ce.ttl : Int))
           | none => false)
          options.headers := by
  cases outcome with
  | err m =>
      simp [requestWithCache, staleFallback_sentHeaders]
  | ok status etagH cacheControlH contentVersionH body =>
      cases hce : alGet cache (cacheKeyOf endpoint options) with
      | none => simp [requestWithCache, hce, afterJson_sentHeaders]
      | some ce =>
          by_cases h304 : status = 304 <;>
            simp [requestWithCache, hce, h304, afterJson_sentHeaders]

/-- `C3`: the network request carries an `If-None-Match` header exactly when
a cache entry for the fingerprint exists, is fresh (age strictly below its
freshness window), and has a non-empty validator; the header value is then
the stored validator.  Caller options that do not themselves set an
`If-None-Match` header are assumed. -/
theorem claim3_conditional_header_exactly_on_fresh_validator {α : Type}
    (endpoint : String) (options : ReqOptions) (customTTL : Option Nat)
    (cacheTTLDefault : Nat) (cache : Cache α) (now0 : Nat)
    (outcome : FetchOutcome α) (now1 : Nat)
    (hno : ∀ p ∈ options.headers, p.1 ≠ "If-None-Match") :
    alGet (requestWithCache endpoint options customTTL cacheTTLDefault cache
        now0 outcome now1).sentHeaders "If-None-Match"
      = match alGet cache (cacheKeyOf endpoint options) with
        | some ce =>
            if (now0 : Int) - ce.timestamp < (ce.ttl : Int) ∧ ce.etag ≠ ""
            then some ce.etag else none
        | none => none := by
  rw [requestWithCache_sentHeaders]
  unfold builtHeaders
  rw [alGet_foldl_alSet_notmem _ _ _ hno]
  cases hce : alGet cache (cacheKeyOf endpoint options) with
  | none => simp [alGet]
  | some ce =>
      by_cases hfresh : (now0 : Int) - ce.timestamp < (ce.ttl : Int)
      · by_cases hetag : ce.etag = ""
        · simp [alGet, hfresh, hetag]
        · simp [hfresh, hetag, alGet_alSet_self]
      · simp [alGet, hfresh]

/-- Witness for `C3`: a fresh entry with validator `v1` puts
`If-None-Match: v1` on the wire. -/
theorem claim3_witness :
    alGet (requestWithCache "e" ⟨none, none, []⟩ none 300000
        ([("e\x7b\x7d", ⟨some (7 : Nat), "v1", 0, 1000⟩)] : Cache Nat) 100
        (.err none) 120).sentHeaders "If-None-Match" = some "v1" :=
  (claim3_conditional_header_exactly_on_fresh_validator "e" ⟨none, none, []⟩
      none 300000 [("e\x7b\x7d", ⟨some 7, "v1", 0, 1000⟩)] 100 (.err none) 120
      (fun p hp => absurd hp (List.not_mem_nil p))).trans (by decide)

/-- `C4`: a non-304 response with decodable body writes a cache entry iff
the response carries a (non-empty) `ETag` or `Bankim-Content-Version`
header; the `ETag` wins as stored validator when both are present; the
stored freshness window follows the `max-age` directive (milliseconds) when
one is present and the default TTL otherwise; and the decoded body is
returned. -/
theorem claim4_cache_write_on_success {α : Type} (endpoint : String)
    (options : ReqOptions) (customTTL : Option Nat) (cacheTTLDefault : Nat)
    (cache : Cache α) (now0 now1 : Nat) (status : Nat)
    (etagH cacheControlH contentVersionH : Option String) (result : ApiResp α)
    (hstatus : 200 ≤ status ∧ status ≤ 299)
    (hetag : etagH ≠ some "") (hcv : contentVersionH ≠ some "") :
    ((etagH = none ∧ contentVersionH = none) →
      (requestWithCache endpoint options customTTL cacheTTLDefault cache now0
          (.ok status etagH cacheControlH contentVersionH (.ok result)) now1).cache
        = cache ∧
      (requestWithCache endpoint options customTTL cacheTTLDefault cache now0
          (.ok status etagH cacheControlH contentVersionH (.ok result)) now1).resp
        = result) ∧
    (¬ (etagH = none ∧ contentVersionH = none) →
      (requestWithCache endpoint options customTTL cacheTTLDefault cache now0
          (.ok status etagH cacheControlH contentVersionH (.ok result)) now1).resp
        = result ∧
      alGet (requestWithCache endpoint options customTTL cacheTTLDefault cache
          now0 (.ok status etagH cacheControlH contentVersionH (.ok result))
          now1).cache (cacheKeyOf endpoint options)
        = some ⟨result.data,
            (match etagH with
             | some s => s
             | none => contentVersionH.getD ""),
            now1,
            (match cacheControlH.bind (fun s => firstMaxAge s.data) with
             | some k => k * 1000
             | none => ttlOf customTTL cacheTTLDefault)⟩) := by
  have h304 : status ≠ 304 := by omega
  constructor
  · rintro ⟨he, hc⟩
    subst he; subst hc
    cases hce : alGet cache (cacheKeyOf endpoint options) with
    | none => simp [requestWithCache, afterJson, jsTruthy, hce]
    | some ce => simp [requestWithCache, afterJson, jsTruthy, hce, h304]
  · intro hpres
    have hguard : (jsTruthy etagH || jsTruthy contentVersionH) = true := by
      cases etagH with
      | some s =>
          have hs : ¬ s = "" := fun h => hetag (by rw [h])
          simp [jsTruthy, hs]
      | none =>
          cases contentVersionH with
          | none => exact absurd ⟨rfl, rfl⟩ hpres
          | some t =>
              have ht : ¬ t = "" := fun h => hcv (by rw [h])
              simp [jsTruthy, ht]
    have hval : jsOrStr etagH contentVersionH
        = (match etagH with
           | some s => s
           | none => contentVersionH.getD "") := by
      cases etagH with
      | some s =>
          have hs : ¬ s = "" := fun h => hetag (by rw [h])
          simp [jsOrStr, jsTruthy, hs]
      | none =>
          cases contentVersionH with
          | none => exact absurd ⟨rfl, rfl⟩ hpres
          | some t =>
              have ht : ¬ t = "" := fun h => hcv (by rw [h])
              simp [jsOrStr, jsTruthy, ht]
    have hcacheline : ∀ c0 : Cache α,
        (afterJson (cacheKeyOf endpoint options)
            (alGet cache (cacheKeyOf endpoint options)) c0
            (builtHeaders (alGet cache (cacheKeyOf endpoint options))
              (match alGet cache (cacheKeyOf endpoint options) with
               | some ce => decide ((now0 : Int) - ce.timestamp < (ce.ttl : Int))
               | none => false) options.headers)
            (ttlOf customTTL cacheTTLDefault) etagH cacheControlH
            contentVersionH (.ok result) now1).cache
          = alSet c0 (cacheKeyOf endpoint options)
              ⟨result.data, jsOrStr etagH contentVersionH, now1,
                parsedTTLOf (ttlOf customTTL cacheTTLDefault) cacheControlH⟩ := by
      intro c0
      simp [afterJson, hguard]
    constructor
    · cases hce : alGet cache (cacheKeyOf endpoint options) with
      | none => simp [requestWithCache, afterJson, hguard, hce]
      | some ce => simp [requestWithCache, afterJson, hguard, hce, h304]
    · cases hce : alGet cache (cacheKeyOf endpoint options) with
      | none =>
          rw [show (requestWithCache endpoint options customTTL cacheTTLDefault
              cache now0 (.ok status etagH cacheControlH contentVersionH
              (.ok result)) now1).cache
            = alSet cache (cacheKeyOf endpoint options)
                ⟨result.data, jsOrStr etagH contentVersionH, now1,
                  parsedTTLOf (ttlOf customTTL cacheTTLDefault) cacheControlH⟩ by
            simp [requestWithCache, afterJson, hguard, hce]]
          rw [alGet_alSet_self, hval, parsedTTLOf_eq]
          cases etagH <;> rfl
      | some ce =>
          rw [show (requestWithCache endpoint options customTTL cacheTTLDefault
              cache now0 (.ok status etagH cacheControlH contentVersionH
              (.ok result)) now1).cache
            = alSet cache (cacheKeyOf endpoint options)
                ⟨result.data, jsOrStr etagH contentVersionH, now1,
                  parsedTTLOf (ttlOf customTTL cacheTTLDefault) cacheControlH⟩ by
            simp [requestWithCache, afterJson, hguard, hce, h304]]
          rw [alGet_alSet_self, hval, parsedTTLOf_eq]
          cases etagH <;> rfl

/-- Witness for `C4`: a 200 response with both validator headers and a
`max-age` directive stores the `ETag` with the directive-derived window and
returns the body. -/
theorem claim4_witness :
    (requestWithCache "e" ⟨none, none, []⟩ none 300000 ([] : Cache Nat) 0
        (.ok 200 (some "v2") (some "public, max-age=60") (some "w")
          (.ok ⟨true, some 5, none⟩)) 77).resp = ⟨true, some 5, none⟩ ∧
    alGet (requestWithCache "e" ⟨none, none, []⟩ none 300000 ([] : Cache Nat) 0
        (.ok 200 (some "v2") (some "public, max-age=60") (some "w")
          (.ok ⟨true, some 5, none⟩)) 77).cache "e\x7b\x7d"
      = some ⟨some 5, "v2", 77, 60000⟩ := by
  have h := (claim4_cache_write_on_success "e" ⟨none, none, []⟩ none 300000
      ([] : Cache Nat) 0 77 200 (some "v2") (some "public, max-age=60")
      (some "w") ⟨true, some 5, none⟩ (by decide) (by decide) (by decide)).2
    (by decide)
  exact ⟨h.1, h.2.trans (by decide)⟩

/-- One `requestWithCache` call preserves the all-validators-non-empty
invariant: the only write stores `etag || contentVersion || ''` under a
guard requiring one of the two to be truthy. -/
theorem requestWithCache_preserves_etag {α : Type} (endpoint : String)
    (options : ReqOptions) (customTTL : Option Nat) (cacheTTLDefault : Nat)
    (cache : Cache α) (now0 : Nat) (outcome : FetchOutcome α) (now1 : Nat)
    (hinv : ∀ kv ∈ cache, kv.2.etag ≠ "") :
    ∀ kv ∈ (requestWithCache endpoint options customTTL cacheTTLDefault cache
        now0 outcome now1).cache, kv.2.etag ≠ "" := by
  intro kv hkv
  cases outcome with
  | err m =>
      rw [show (requestWithCache endpoint options customTTL cacheTTLDefault
          cache now0 (.err m) now1).cache = cache by
        simp [requestWithCache, staleFallback_cache]] at hkv
      exact hinv kv hkv
  | ok status etagH cacheControlH contentVersionH body =>
      have hbody : ∀ (hcache : (requestWithCache endpoint options customTTL
          cacheTTLDefault cache now0
          (.ok status etagH cacheControlH contentVersionH body) now1).cache
            = cache), kv.2.etag ≠ "" := by
        intro hcache
        rw [hcache] at hkv
        exact hinv kv hkv
      cases hce : alGet cache (cacheKeyOf endpoint options) with
      | some ce =>
          by_cases h304 : status = 304
          · exact hbody (by simp [requestWithCache, hce, h304])
          · cases body with
            | error m =>
                exact hbody (by
                  simp [requestWithCache, hce, h304, afterJson, staleFallback_cache])
            | ok r =>
                cases hg : (jsTruthy etagH || jsTruthy contentVersionH) with
                | false =>
                    exact hbody (by
                      simp [requestWithCache, hce, h304, afterJson, hg])
                | true =>
                    rw [show (requestWithCache endpoint options customTTL
                        cacheTTLDefault cache now0 (.ok status etagH
                        cacheControlH contentVersionH (.ok r)) now1).cache
                      = alSet cache (cacheKeyOf endpoint options)
                          ⟨r.data, jsOrStr etagH contentVersionH, now1,
                            parsedTTLOf (ttlOf customTTL cacheTTLDefault)
                              cacheControlH⟩ by
                      simp [requestWithCache, hce, h304, afterJson, hg]] at hkv
                    rcases mem_alSet _ _ _ _ hkv with h1 | h1
                    · exact hinv kv h1
                    · rw [h1]
                      exact jsOrStr_ne_empty _ _ hg
      | none =>
          cases body with
          | error m =>
              exact hbody (by
                simp [requestWithCache, hce, afterJson, staleFallback_cache])
          | ok r =>
              cases hg : (jsTruthy etagH || jsTruthy contentVersionH) with
              | false =>
                  exact hbody (by simp [requestWithCache, hce, afterJson, hg])
              | true =>
                  rw [show (requestWithCache endpoint options customTTL
                      cacheTTLDefault cache now0 (.ok status etagH
                      cacheControlH contentVersionH (.ok r)) now1).cache
                    = alSet cache (cacheKeyOf endpoint options)
                        ⟨r.data, jsOrStr etagH contentVersionH, now1,
                          parsedTTLOf (ttlOf customTTL cacheTTLDefault)
                            cacheControlH⟩ by
                    simp [requestWithCache, hce, afterJson, hg]] at hkv
                  rcases mem_alSet _ _ _ _ hkv with h1 | h1
                  · exact hinv kv h1
                  · rw [h1]
                    exact jsOrStr_ne_empty _ _ hg

/-- `C10`: in every reachable cache state, every stored entry has a
non-empty validator, and the `getCacheStats` report shows `hasEtag = true`
for every entry at every observation time. -/
theorem claim10_cache_validator_invariant {α : Type} (c : Cache α)
    (h : Reachable α c) :
    (∀ kv ∈ c, kv.2.etag ≠ "") ∧
    ∀ now : Nat, ∀ s ∈ (getCacheStats c now).2, s.hasEtag = true := by
  have main : ∀ kv ∈ c, kv.2.etag ≠ "" := by
    induction h with
    | empty => intro kv hkv; cases hkv
    | step endpoint options customTTL cacheTTLDefault now0 outcome now1 c' hr ih =>
        exact requestWithCache_preserves_etag endpoint options customTTL
          cacheTTLDefault c' now0 outcome now1 ih
    | clear c' hr ih => intro kv hkv; cases hkv
  refine ⟨main, fun now s hs => ?_⟩
  obtain ⟨kv, hkv, rfl⟩ := List.mem_map.1 hs
  simp [main kv hkv]

/-- Witness for `C10`: the entry written by one call from the empty cache
has a non-empty validator. -/
theorem claim10_witness :
    ("e\x7b\x7d", (⟨some 5, "v1", 10, 300000⟩ : CacheEntry Nat)).2.etag ≠ "" :=
  (claim10_cache_validator_invariant _
      (Reachable.step "e" ⟨none, none, []⟩ none 300000 0
        (.ok 200 (some "v1") none none (.ok ⟨true, some 5, none⟩)) 10 []
        Reachable.empty)).1
    ("e\x7b\x7d", ⟨some 5, "v1", 10, 300000⟩) (by decide)

/-- `C6`: with the real-content-data flag disabled and a base URL matching a
placeholder pattern, `isPlaceholderUrl` is true and `getContentByScreen`
returns the static language-selected payload without touching the network
or the cache; with the flag set, `isPlaceholderUrl` is false on every URL. -/
theorem claim6_placeholder_guard (apiBaseUrl : String)
    (screenLocation languageCode : String) (cache : Cache ContentApiResponse)
    (now0 : Nat) (outcome : FetchOutcome ContentApiResponse) (now1 : Nat)
    (cacheTTLDefault : Nat)
    (hmatch : (containsCL "your-api-domain.railway.app".data apiBaseUrl.data ||
        containsCL "your-backend-domain.railway.app".data apiBaseUrl.data ||
        containsCL "localhost:3001".data apiBaseUrl.data) = true) :
    isPlaceholderUrl false apiBaseUrl = true ∧
    getContentByScreen false apiBaseUrl screenLocation languageCode cache now0
        outcome now1 cacheTTLDefault
      = ⟨⟨true, some (mockContentResponse screenLocation languageCode), none⟩,
          cache, false⟩ ∧
    (∀ url : String, isPlaceholderUrl true url = false) := by
  have hp : isPlaceholderUrl false apiBaseUrl = true := by
    simpa [isPlaceholderUrl] using hmatch
  exact ⟨hp, by simp [getContentByScreen, hp], fun url => rfl⟩

/-- Witness for `C6`: the default `localhost:3001` base URL is treated as a
placeholder and yields the Hebrew mock payload with no fetch. -/
theorem claim6_witness :
    isPlaceholderUrl false "http://localhost:3001" = true ∧
    getContentByScreen false "http://localhost:3001" "main_page" "he" [] 0
        (.err none) 0 300000
      = ⟨⟨true, some (mockContentResponse "main_page" "he"), none⟩, [], false⟩ ∧
    isPlaceholderUrl true "http://localhost:3001" = false := by
  have h := claim6_placeholder_guard "http://localhost:3001" "main_page" "he"
    [] 0 (.err none) 0 300000 (by decide)
  exact ⟨h.1, h.2.1, h.2.2 "http://localhost:3001"⟩

/-! Fingerprint determinism: `endpoint + JSON.stringify(options)` is
injective in the method and body fields (for fixed caller headers), because
JSON string escaping makes the serialized fields unambiguously parseable. -/

theorem escStr_data (s : String) : (escStr s).data = escList s.data := rfl

theorem unquote_escList (s t : List Char) :
    unquote (escList s ++ '"' :: t) = some (s, t) := by
  induction s with
  | nil => simp [escList, unquote]
  | cons c s' ih =>
      by_cases hc : c = '"' ∨ c = '\\'
      · rcases hc with hc | hc <;> subst hc <;> simp [escList, unquote, ih]
      · push_neg at hc
        simp [escList, unquote, hc.1, hc.2, ih]

theorem escList_quote_inj (s1 s2 t1 t2 : List Char)
    (h : escList s1 ++ '"' :: t1 = escList s2 ++ '"' :: t2) :
    s1 = s2 ∧ t1 = t2 := by
  have h1 := congrArg unquote h
  rw [unquote_escList, unquote_escList] at h1
  simpa using h1

theorem escList_inj (s1 s2 : List Char) (h : escList s1 = escList s2) :
    s1 = s2 :=
  (escList_quote_inj s1 s2 [] [] (by rw [h])).1

theorem dataLitEmpty : ("" : String).data = [] := rfl

theorem dataLitMethod : ("\x7b\"method\":\"" : String).data
    = '\x7b' :: '"' :: 'm' :: 'e' :: 't' :: 'h' :: 'o' :: 'd' :: '"' :: ':' :: '"' :: [] := rfl

theorem dataLitBodyMid : ("\",\"body\":\"" : String).data
    = '"' :: ',' :: '"' :: 'b' :: 'o' :: 'd' :: 'y' :: '"' :: ':' :: '"' :: [] := rfl

theorem dataLitQuote : ("\"" : String).data = '"' :: [] := rfl

theorem dataLitBodyStart : ("\x7b\"body\":\"" : String).data
    = '\x7b' :: '"' :: 'b' :: 'o' :: 'd' :: 'y' :: '"' :: ':' :: '"' :: [] := rfl

theorem dataLitOpen : ("\x7b" : String).data = '\x7b' :: [] := rfl

theorem dataLitClose : ("\x7d" : String).data = '\x7d' :: [] := rfl

theorem dataLitHeadersTail : (",\"headers\":\x7b" : String).data
    = ',' :: '"' :: 'h' :: 'e' :: 'a' :: 'd' :: 'e' :: 'r' :: 's' :: '"' :: ':' :: '\x7b' :: [] := rfl

theorem dataLitHeadersOnly : ("\"headers\":\x7b" : String).data
    = '"' :: 'h' :: 'e' :: 'a' :: 'd' :: 'e' :: 'r' :: 's' :: '"' :: ':' :: '\x7b' :: [] := rfl

/-- After a serialized field, the closing `"` is followed either by a
`,"body"` fragment or by the headers fragment and `\x7d`; these cannot
coincide because the headers fragment starts with `,"h`. -/
theorem headersTailFrag_ne_bodyRest (hs : List (String × String)) (c : Char)
    (hc : c ≠ 'h') (X : List Char) :
    ¬ (',' :: '"' :: c :: X = (headersTailFrag hs).data ++ '\x7d' :: []) := by
  cases hs with
  | nil => intro hcon; simp [headersTailFrag, dataLitEmpty] at hcon
  | cons q qs =>
      intro hcon
      simp [headersTailFrag, String.data_append, dataLitHeadersTail,
        List.cons_append, List.append_assoc] at hcon
      exact hc hcon.1

/-- Same discrimination for the field-free serialization: the body after `\x7b`
is either `\x7d` or the headers object, never a `"method"`/`"body"` field. -/
theorem headersOnlyFrag_ne_field (hs : List (String × String)) (c : Char)
    (hc : c ≠ 'h') (X : List Char) :
    ¬ ('"' :: c :: X = (headersOnlyFrag hs).data ++ '\x7d' :: []) := by
  cases hs with
  | nil => intro hcon; simp [headersOnlyFrag, dataLitEmpty] at hcon
  | cons q qs =>
      intro hcon
      simp [headersOnlyFrag, String.data_append, dataLitHeadersOnly,
        List.cons_append, List.append_assoc] at hcon
      exact hc hcon.1

theorem string_append_cancel_left (e s1 s2 : String) (h : e ++ s1 = e ++ s2) :
    s1 = s2 := by
  have hd := congrArg String.data h
  rw [String.data_append, String.data_append] at hd
  exact congrArg String.mk (List.append_cancel_left hd)

/-- `JSON.stringify` of the options object determines the method and body
fields, holding the caller headers fixed. -/
theorem serializeOptions_inj (o1 o2 : ReqOptions) (hh : o1.headers = o2.headers)
    (h : serializeOptions o1 = serializeOptions o2) :
    o1.method = o2.method ∧ o1.body = o2.body := by
  obtain ⟨m1, b1, hs⟩ := o1
  obtain ⟨m2, b2, hs2⟩ := o2
  simp only at hh
  subst hh
  have hd := congrArg String.data h
  clear h
  rcases m1 with _ | m1v <;> rcases b1 with _ | b1v <;>
    rcases m2 with _ | m2v <;> rcases b2 with _ | b2v <;>
    simp only [serializeOptions] at hd <;>
    simp [String.data_append, escStr_data, dataLitMethod, dataLitBodyMid,
      dataLitQuote, dataLitBodyStart, dataLitOpen, dataLitClose,
      List.cons_append, List.nil_append, List.append_assoc] at hd ⊢
  -- remaining goals: the combinations the normalization alone cannot settle
  case _ => exact absurd hd.symm (headersOnlyFrag_ne_field hs 'b' (by decide) _)
  case _ => exact absurd hd.symm (headersOnlyFrag_ne_field hs 'm' (by decide) _)
  case _ => exact absurd hd.symm (headersOnlyFrag_ne_field hs 'm' (by decide) _)
  case _ => exact absurd hd (headersOnlyFrag_ne_field hs 'b' (by decide) _)
  case _ => exact congrArg String.mk (escList_inj _ _ hd)
  case _ => exact absurd hd (headersOnlyFrag_ne_field hs 'm' (by decide) _)
  case _ => exact congrArg String.mk (escList_inj _ _ hd)
  case _ =>
      obtain ⟨hm, hrest⟩ := escList_quote_inj _ _ _ _ hd
      exact absurd hrest.symm (headersTailFrag_ne_bodyRest hs 'b' (by decide) _)
  case _ => exact absurd hd (headersOnlyFrag_ne_field hs 'm' (by decide) _)
  case _ =>
      obtain ⟨hm, hrest⟩ := escList_quote_inj _ _ _ _ hd
      exact absurd hrest (headersTailFrag_ne_bodyRest hs 'b' (by decide) _)
  case _ =>
      obtain ⟨hm, hrest⟩ := escList_quote_inj _ _ _ _ hd
      simp at hrest
      exact ⟨congrArg String.mk hm, congrArg String.mk (escList_inj _ _ hrest)⟩

/-- `C7`: the cache fingerprint is a deterministic function of the endpoint
and the options, and two requests with the same endpoint and caller headers
that differ in method or in body always receive different fingerprints. -/
theorem claim7_fingerprint_determinism (endpoint : String) (o1 o2 : ReqOptions)
    (hh : o1.headers = o2.headers) :
    (o1 = o2 → cacheKeyOf endpoint o1 = cacheKeyOf endpoint o2) ∧
    ((o1.method ≠ o2.method ∨ o1.body ≠ o2.body) →
      cacheKeyOf endpoint o1 ≠ cacheKeyOf endpoint o2) := by
  refine ⟨fun h => by rw [h], fun hdiff hkeq => ?_⟩
  have hser : serializeOptions o1 = serializeOptions o2 :=
    string_append_cancel_left endpoint _ _ hkeq
  obtain ⟨hm, hb⟩ := serializeOptions_inj o1 o2 hh hser
  rcases hdiff with hdm | hdb
  · exact hdm hm
  · exact hdb hb

/-- Witness for `C7`: a GET-style and a POST-with-body request to the same
endpoint get different fingerprints. -/
theorem claim7_witness :
    cacheKeyOf "/api/content/x" ⟨some "GET", none, []⟩
      ≠ cacheKeyOf "/api/content/x" ⟨some "POST", some "\x7b\x7d", []⟩ :=
  (claim7_fingerprint_determinism "/api/content/x" ⟨some "GET", none, []⟩
    ⟨some "POST", some "\x7b\x7d", []⟩ rfl).2 (Or.inl (by decide))

/-- `C8`: the aggregated list is sorted ascending by sequence number for
every input, and on inputs carrying sequence numbers [3,1,2] the output
sequence numbers are [1,2,3]. -/
theorem claim8_aggregated_content_sorted :
    (∀ rs : List ContentApiResponse,
      List.Sorted (fun a b => a.pageNumber ≤ b.pageNumber)
        (transformApiToContentPages rs)) ∧
    (transformApiToContentPages sampleRespSeq312).map
        (fun p => p.pageNumber) = [1, 2, 3] := by
  constructor
  · intro rs
    exact List.sorted_insertionSort _ _
  · decide

theorem alGet_mem {β : Type} (m : List (String × β)) (k : String) (v : β)
    (h : alGet m k = some v) : (k, v) ∈ m := by
  induction m with
  | nil => simp [alGet] at h
  | cons q rest ih =>
      obtain ⟨qk, qv⟩ := q
      by_cases hq : qk = k
      · subst hq
        simp [alGet] at h
        subst h
        exact List.mem_cons_self _ _
      · simp only [alGet, hq, if_false] at h
        exact List.mem_cons_of_mem _ (ih h)

theorem applyLang_title_of_ne (lang : String) (cd : ContentData)
    (p : PageBuild) (h : lang ≠ "ru") : (applyLang lang cd p).title = p.title := by
  unfold applyLang
  rw [if_neg h]
  split_ifs <;> rfl

theorem applyKind_title (cd : ContentData) (p : PageBuild) :
    (applyKind cd p).title = p.title := by
  unfold applyKind
  split_ifs <;> rfl

theorem processKey_title_none (m : List (String × PageBuild))
    (lang key : String) (cd : ContentData) (hlang : lang ≠ "ru")
    (hm : ∀ kv ∈ m, kv.2.title = none) :
    ∀ kv ∈ processKey m lang key cd, kv.2.title = none := by
  intro kv hkv
  simp only [processKey] at hkv
  cases hext : extractAction key.data with
  | none =>
      rw [hext] at hkv
      exact hm kv hkv
  | some n =>
      rw [hext] at hkv
      cases hget : alGet m ("action-" ++ toString n) with
      | some pg =>
          simp only [hget] at hkv
          rcases mem_alSet _ _ _ _ hkv with h1 | h1
          · exact hm kv h1
          · rw [h1]
            show (applyKind cd (applyLang lang cd pg)).title = none
            rw [applyKind_title, applyLang_title_of_ne _ _ _ hlang]
            exact hm ("action-" ++ toString n, pg) (alGet_mem _ _ _ hget)
      | none =>
          simp only [hget, alGet_alSet_self] at hkv
          rcases mem_alSet _ _ _ _ hkv with h1 | h1
          · rcases mem_alSet _ _ _ _ h1 with h2 | h2
            · exact hm kv h2
            · rw [h2]; rfl
          · rw [h1]
            show (applyKind cd (applyLang lang cd (newPage n cd))).title = none
            rw [applyKind_title, applyLang_title_of_ne _ _ _ hlang]
            rfl

theorem foldl_processKey_title_none (lang : String)
    (l : List (String × ContentData)) (hlang : lang ≠ "ru") :
    ∀ m, (∀ kv ∈ m, kv.2.title = none) →
      ∀ kv ∈ l.foldl (fun m p => processKey m lang p.1 p.2) m,
        kv.2.title = none := by
  induction l with
  | nil => intro m hm kv hkv; exact hm kv hkv
  | cons q rest ih =>
      intro m hm kv hkv
      simp only [List.foldl_cons] at hkv
      exact ih _ (processKey_title_none m lang q.1 q.2 hlang hm) kv hkv

theorem buildPageMap_title_none (rs : List ContentApiResponse)
    (hno : ∀ r ∈ rs, r.language_code ≠ "ru") :
    ∀ kv ∈ buildPageMap rs, kv.2.title = none := by
  have aux : ∀ (rs' : List ContentApiResponse) (m : List (String × PageBuild)),
      (∀ r ∈ rs', r.language_code ≠ "ru") →
      (∀ kv ∈ m, kv.2.title = none) →
      ∀ kv ∈ rs'.foldl processResponse m, kv.2.title = none := by
    intro rs'
    induction rs' with
    | nil => intro m _ hm kv hkv; exact hm kv hkv
    | cons r rest ih =>
        intro m hno' hm kv hkv
        simp only [List.foldl_cons] at hkv
        refine ih _ (fun x hx => hno' x (List.mem_cons_of_mem _ hx)) ?_ kv hkv
        intro kv' hkv'
        simp only [processResponse] at hkv'
        exact foldl_processKey_title_none r.language_code r.content
          (hno' r (List.mem_cons_self r rest)) m hm kv' hkv'
  exact aux rs [] hno (fun kv hkv => absurd hkv (List.not_mem_nil kv))

/-- Counterexample to `C9` as stated: the Hebrew-only response supplies a
non-empty title for sequence number 1, yet the aggregator output is empty —
the canonical display title is only ever assigned from the `ru` branch, so
the "at least one language" direction of the claimed iff fails. -/
theorem claim9_counterexample :
    transformApiToContentPages [heOnlyResp] = [] ∧
    extractAction "app.main.action.1.text.x".data = some 1 ∧
    heOnlyResp.language_code = "he" ∧ ("שלום" : String) ≠ "" := by decide

/-- `C9` (amended): an aggregated entry for a sequence number appears iff
the built map records an entry for it whose canonical display title —
assigned only while processing primary-language (`ru`) responses — is
non-empty; in particular inputs with no `ru` response aggregate to nothing,
and a primary-language-only entry still appears with the secondary-language
slots left empty. -/
theorem claim9_title_existence_amended :
    (∀ (rs : List ContentApiResponse) (n : Nat),
      (∃ p ∈ transformApiToContentPages rs, p.pageNumber = n) ↔
      (∃ kv ∈ buildPageMap rs, kv.2.pageNumber = n ∧
        jsTruthy kv.2.title = true)) ∧
    (∀ rs : List ContentApiResponse, (∀ r ∈ rs, r.language_code ≠ "ru") →
      transformApiToContentPages rs = []) ∧
    (transformApiToContentPages [ruOnlyResp]).map
        (fun p => (p.pageNumber, p.title, p.titleHe, p.titleEn))
      = [(1, "Один", none, none)] := by
  refine ⟨fun rs n => ?_, fun rs hno => ?_, by decide⟩
  · constructor
    · rintro ⟨p, hp, hpn⟩
      simp only [transformApiToContentPages] at hp
      rw [(List.perm_insertionSort _ _).mem_iff] at hp
      obtain ⟨q, hq, rfl⟩ := List.mem_map.1 hp
      obtain ⟨hqm, hqt⟩ := List.mem_filter.1 hq
      obtain ⟨kv, hkv, rfl⟩ := List.mem_map.1 hqm
      exact ⟨kv, hkv, hpn, hqt⟩
    · rintro ⟨kv, hkv, hn, ht⟩
      refine ⟨finalize kv.2, ?_, hn⟩
      simp only [transformApiToContentPages]
      rw [(List.perm_insertionSort _ _).mem_iff]
      exact List.mem_map.2
        ⟨kv.2, List.mem_filter.2 ⟨List.mem_map.2 ⟨kv, hkv, rfl⟩, ht⟩, rfl⟩
  · have hnone := buildPageMap_title_none rs hno
    have hfl : ((buildPageMap rs).map Prod.snd).filter
        (fun p => jsTruthy p.title) = [] := by
      rw [List.filter_eq_nil_iff]
      intro p hp
      obtain ⟨kv, hkv, rfl⟩ := List.mem_map.1 hp
      simp [hnone kv hkv, jsTruthy]
    simp only [transformApiToContentPages, hfl, List.map_nil]
    rfl

/-- Witness for the amended `C9`: a response list with no primary-language
response aggregates to the empty list. -/
theorem claim9_witness : transformApiToContentPages [enOnlyResp] = [] :=
  claim9_title_existence_amended.2.1 [enOnlyResp] (by decide)

end BankimApi
